import Mathlib

/-!
Verification of the core logic of the fantasy-stocks game server
(`src/app.py`, with `get_snake_order` duplicated in `src/api/app.py`).

The price layer, draft engine, trade engine, milestone evaluator and
game-summary phase check are shallowly embedded below.  Machine floats
are modelled as rationals (`ℚ`), with the single `float('inf')` value
that the volatility code manipulates modelled by an explicit `Vol.inf`
constructor.  Time stamps (`time.time()`, ISO dates) are rationals.
External effects (yfinance calls, file persistence) are modelled by
oracle functions and by explicit state passing: a route handler that
raises an uncaught exception never reaches `save_data`, so such runs
are modelled as `Option.none` (no persisted change).
-/

/-- Outcome of one underlying call to the external quote source, as
classified by `fetch_stock_info` in `src/app.py` lines 87-115:
a successful close price, an empty history, an HTTP 429 ("too many
requests"), another HTTP error, or any other exception. -/
inductive FetchSignal where
  | ok (price : ℚ)
  | emptyHist
  | rateLimited
  | httpError
  | exn
deriving DecidableEq

/-- The retry loop body of `fetch_stock_info` (src/app.py lines 88-113).
`fetcher n` is the outcome of the `n`-th underlying call.  Returns the
resulting price (`none` models Python `None`), the number of underlying
calls made, and the total time slept.  The Python loop runs `attempt`
from `0` to `max_retries - 1`; on a 429 with `attempt < max_retries - 1`
it sleeps `initial_delay * 2 ** attempt` and continues, and on the last
attempt it returns `None`.  A fetched price of `0` is falsy in Python
(`if current:`), so it also yields `None`. -/
def fetchAux (fetcher : Nat → FetchSignal) (max_retries initial_delay attempt : Nat) :
    Option ℚ × Nat × Nat :=
  if _h : attempt < max_retries then
    match fetcher attempt with
    | .ok p => if p = 0 then (none, 1, 0) else (some p, 1, 0)
    | .rateLimited =>
        if attempt + 1 < max_retries then
          let r := fetchAux fetcher max_retries initial_delay (attempt + 1)
          (r.1, r.2.1 + 1, r.2.2 + initial_delay * 2 ^ attempt)
        else (none, 1, 0)
    | _ => (none, 1, 0)
  else (none, 0, 0)
termination_by max_retries - attempt

/-- `fetch_stock_info` (src/app.py line 87): retry budget 5,
initial backoff delay 10. -/
def fetch_stock_info (fetcher : Nat → FetchSignal) : Option ℚ × Nat × Nat :=
  fetchAux fetcher 5 10 0

/-- One entry of the stock cache: the cached `info` dict's
`currentPrice`, and the `time.time()` stamp stored with it
(src/app.py lines 78-85). -/
structure CacheEntry where
  info : ℚ
  timestamp : ℚ
deriving DecidableEq

/-- Python `str.upper()` (character-wise upper-casing). -/
def pyUpper (s : String) : String := String.mk (s.data.map Char.toUpper)

/-- Python `str.strip()` (drop leading and trailing whitespace). -/
def pyStrip (s : String) : String :=
  String.mk (((s.data.dropWhile Char.isWhitespace).reverse.dropWhile
    Char.isWhitespace).reverse)

/-- `get_cached_stock_info` (src/app.py lines 68-76): upper-case the
ticker, and return the cached price only when `now - timestamp` is
strictly below the TTL. -/
def get_cached_stock_info (cache : List (String × CacheEntry)) (now : ℚ)
    (ticker : String) (cache_duration : ℚ) : Option ℚ :=
  match cache.lookup (pyUpper ticker) with
  | some e => if now - e.timestamp < cache_duration then some e.info else none
  | none => none

/-- Overwrite-or-insert on an association list, mirroring Python dict
assignment `m[k] = v` for a key already present (entry replaced in
place, order kept). -/
def assoc_set {β : Type} (m : List (String × β)) (k : String) (v : β) :
    List (String × β) :=
  m.map (fun e => if e.1 = k then (e.1, v) else e)

/-- Python dict assignment `m[k] = v`: replace the entry if the key is
present, otherwise append the new key (insertion order). -/
def dict_insert {β : Type} (m : List (String × β)) (k : String) (v : β) :
    List (String × β) :=
  if (m.lookup k).isSome then assoc_set m k v else m ++ [(k, v)]

/-- `cache_stock_info` (src/app.py lines 78-85): store the fetched info
under the upper-cased ticker with the current time stamp. -/
def cache_stock_info (cache : List (String × CacheEntry)) (ticker : String)
    (info : ℚ) (now : ℚ) : List (String × CacheEntry) :=
  dict_insert cache (pyUpper ticker) ⟨info, now⟩

/-- Result of one cache-fronted price resolution: the resolved price,
the cache afterwards, the number of underlying quote-source calls, and
the total time slept. -/
structure PriceFetchRes where
  result : Option ℚ
  cache : List (String × CacheEntry)
  calls : Nat
  slept : Nat
deriving DecidableEq

/-- The cache-fronted price lookup (`getPrice` of the spec), as it
appears verbatim at src/app.py lines 575-582, 188-195 and 888-895:
try `get_cached_stock_info` with the 21600-second TTL; on a miss call
`fetch_stock_info` and, on success, `cache_stock_info` the result. -/
def getPrice (cache : List (String × CacheEntry)) (now : ℚ) (ticker : String)
    (fetcher : Nat → FetchSignal) : PriceFetchRes :=
  match get_cached_stock_info cache now ticker 21600 with
  | some p => ⟨some p, cache, 0, 0⟩
  | none =>
      let r := fetch_stock_info fetcher
      match r.1 with
      | some p => ⟨some p, cache_stock_info cache ticker p now, r.2.1, r.2.2⟩
      | none => ⟨none, cache, r.2.1, r.2.2⟩

/-- `get_snake_order` (src/app.py lines 172-179 and src/api/app.py
lines 102-109): for each round extend the order with the player list,
forward on even rounds and reversed on odd rounds. -/
def get_snake_order (players : List String) (total_rounds : Nat) : List String :=
  (List.range total_rounds).foldl
    (fun order i => order ++ (if i % 2 = 0 then players else players.reverse)) []

/-- Round to the nearest integer, ties to the even integer, modelling
Python's `round` on the values produced here. -/
def roundHalfEven (x : ℚ) : ℤ :=
  let f := ⌊x⌋
  let r := x - f
  if r < 1 / 2 then f
  else if 1 / 2 < r then f + 1
  else if f % 2 = 0 then f else f + 1

/-- Python `round(x, 2)`. -/
def round2 (x : ℚ) : ℚ := (roundHalfEven (x * 100) : ℚ) / 100

/-- A drafted pick (src/app.py line 618): ticker, price at draft time,
draft time stamp. -/
structure Pick where
  ticker : String
  price : ℚ
  time : ℚ
deriving DecidableEq

/-- A player record (src/app.py line 460): name, maximum pick count,
and the derived list of currently picked tickers. -/
structure Player where
  name : String
  max : Nat
  picked : List String
deriving DecidableEq

/-- A trade record (src/app.py lines 749-756). -/
structure Trade where
  id : Nat
  from_player : String
  to_player : String
  offer_ticker : String
  request_ticker : String
  status : String
deriving DecidableEq

/-- A volatility value: a rational, or the `float('inf')` produced by
`calculate_volatility` when no pick yielded a series. -/
inductive Vol where
  | fin (v : ℚ)
  | inf
deriving DecidableEq

/-- Float `<` restricted to the values flowing through the milestone
code: `inf` compares strictly below nothing. -/
def Vol.ltb : Vol → Vol → Bool
  | .fin a, .fin b => a < b
  | .fin _, .inf => true
  | .inf, _ => false

/-- Float `≤` on the same values. -/
def Vol.leb : Vol → Vol → Bool
  | _, .inf => true
  | .inf, .fin _ => false
  | .fin a, .fin b => a ≤ b

/-- A milestone record (src/app.py lines 471-474). -/
structure Milestone where
  time : ℚ
  mtype : String
  winner : Option String
  value : Vol
deriving DecidableEq

/-- The persisted game record (src/app.py lines 30-42 and 482-494).
Python dicts become association lists in insertion order. -/
structure GameData where
  players : List Player
  draft_order : List String
  picks : List (String × List Pick)
  status : String
  all_picks : List String
  time_frame : Option String
  start_date : Option ℚ
  end_date : Option ℚ
  trades : List Trade
  milestones : List Milestone
  trade_limits : List (String × Int)
deriving DecidableEq

/-- `data['picks'].setdefault(name, []).append(pick)`
(src/app.py line 618). -/
def picks_append (picks : List (String × List Pick)) (name : String) (pk : Pick) :
    List (String × List Pick) :=
  match picks.lookup name with
  | some l => assoc_set picks name (l ++ [pk])
  | none => picks ++ [(name, [pk])]

/-- Ways a draft submission can fail without persisting anything.
`emptyTicker`, `duplicate` and `unavailable` are the explicit error
pages of the handler; `nameNotInQueue` models the uncaught
`ValueError` of `draft_order.remove(name)` when `name` is absent
(the handler crashes before `save_data`). -/
inductive DraftError where
  | emptyTicker
  | duplicate
  | unavailable
  | nameNotInQueue
deriving DecidableEq

/-- The draft POST handler (src/app.py lines 501-625).  `priceRes` is
the outcome of the cache/fetch price resolution for the normalized
ticker (`None` when both cache and fetch fail).  Returns the persisted
game record together with the error, if any; every error leaves the
record unchanged. -/
def draft_submit (d : GameData) (name rawTicker : String) (priceRes : Option ℚ)
    (now : ℚ) : GameData × Option DraftError :=
  let ticker := pyStrip (pyUpper rawTicker)
  if ticker = "" then (d, some .emptyTicker)
  else if ticker ∈ d.all_picks then (d, some .duplicate)
  else
    match priceRes with
    | none => (d, some .unavailable)
    | some current =>
        if name ∈ d.draft_order then
          ({ d with
              picks := picks_append d.picks name ⟨ticker, current, now⟩
              all_picks := d.all_picks ++ [ticker]
              players := d.players.map
                (fun p => if p.name == name then { p with picked := p.picked ++ [ticker] } else p)
              draft_order := d.draft_order.erase name }, none)
        else (d, some .nameNotInQueue)

/-- Set the status of the first trade with the given id
(`trade['status'] = response` on the dict found by
`next((t for t in data['trades'] if t['id'] == trade_id), None)`,
src/app.py lines 764-766). -/
def set_trade_status : List Trade → Nat → String → List Trade
  | [], _, _ => []
  | t :: ts, tid, resp =>
      if t.id == tid then { t with status := resp } :: ts
      else t :: set_trade_status ts tid resp

/-- The per-player update of the derived `picked` lists on an accepted
trade (src/app.py lines 776-782).  `list.remove` raises `ValueError`
when the ticker is absent, modelled as `none` (crash, nothing saved). -/
def update_player_picked (t : Trade) (p : Player) : Option Player :=
  if p.name == t.from_player then
    if t.offer_ticker ∈ p.picked then
      some { p with picked := p.picked.erase t.offer_ticker ++ [t.request_ticker] }
    else none
  else if p.name == t.to_player then
    if t.request_ticker ∈ p.picked then
      some { p with picked := p.picked.erase t.request_ticker ++ [t.offer_ticker] }
    else none
  else some p

/-- The pick swap performed on an accepted trade (src/app.py lines
767-782): look up both players' pick lists, find the first pick with
each traded ticker, remove and cross-append them, and update the
derived `picked` lists.  A missing dict key, a `next` with no match, or
a failing `list.remove` raises before `save_data`, modelled as `none`. -/
def accept_swap (d : GameData) (t : Trade) : Option GameData :=
  match d.picks.lookup t.from_player, d.picks.lookup t.to_player with
  | some fromPicks, some toPicks =>
      match fromPicks.find? (fun p => p.ticker == t.offer_ticker),
            toPicks.find? (fun p => p.ticker == t.request_ticker) with
      | some fp, some tp =>
          let fromPicks' := fromPicks.erase fp ++ [tp]
          let toPicks' := toPicks.erase tp ++ [fp]
          let picks' := assoc_set (assoc_set d.picks t.from_player fromPicks')
            t.to_player toPicks'
          match d.players.mapM (update_player_picked t) with
          | some players' => some { d with picks := picks', players := players' }
          | none => none
      | _, _ => none
  | _, _ => none

/-- The `respond` branch of the trade handler (src/app.py lines
761-784): find the first trade with the given id — its status is not
inspected — set its status to the response, and on `accepted` run the
pick swap.  No matching trade is a silent no-op.  `none` models a crash
before `save_data` (nothing persisted). -/
def trade_respond (d : GameData) (trade_id : Nat) (response : String) :
    Option GameData :=
  match d.trades.find? (fun t => t.id == trade_id) with
  | none => some d
  | some t =>
      let d' := { d with trades := set_trade_status d.trades trade_id response }
      if response == "accepted" then accept_swap d' t else some d'

/-- The opportunistic end-of-game check at the top of the `/game` view
(src/app.py lines 870-875): whenever `end_date` is set and the current
time is strictly past it, the status becomes `finished` — the current
status is not inspected. -/
def game_check_expiry (status : String) (end_date : Option ℚ) (now : ℚ) : String :=
  match end_date with
  | some ed => if now > ed then "finished" else status
  | none => status

/-- The accumulator loop of `calculate_points` (src/app.py lines
184-202): running `total_change` and `count`.  `price_of` is the
cache/fetch resolution oracle; a pick whose price cannot be resolved is
skipped, and a zero draft price raises `ZeroDivisionError`, which the
`except` clause turns into a skip. -/
def cpLoop (price_of : String → Option ℚ) : List Pick → ℚ → Nat → ℚ × Nat
  | [], tc, c => (tc, c)
  | p :: rest, tc, c =>
      match price_of p.ticker with
      | none => cpLoop price_of rest tc c
      | some current =>
          if p.price = 0 then cpLoop price_of rest tc c
          else cpLoop price_of rest (tc + (current - p.price) / p.price * 100) (c + 1)

/-- `calculate_points` (src/app.py lines 181-203). -/
def calculate_points (picks : List Pick) (price_of : String → Option ℚ) : ℚ :=
  if picks.isEmpty then 0
  else
    let r := cpLoop price_of picks 0 0
    if 0 < r.2 then round2 (r.1 / (r.2 : ℚ)) else 0

/-- Modelled from the spec's words for the refinement claim about
points: the list of `(current − draftPrice) / draftPrice × 100`
percentage changes over the picks with an available current price. -/
def specChanges (picks : List Pick) (price_of : String → Option ℚ) : List ℚ :=
  picks.filterMap
    (fun p => (price_of p.ticker).map (fun current => (current - p.price) / p.price * 100))

/-- Modelled from the spec's words: the arithmetic mean of the
available percentage changes, rounded to 2 decimals, or 0 if none are
available. -/
def specMeanPercentChange (picks : List Pick) (price_of : String → Option ℚ) : ℚ :=
  let cs := specChanges picks price_of
  if cs.isEmpty then 0 else round2 (cs.sum / (cs.length : ℚ))

/-- One leaderboard row (src/app.py line 925). -/
structure LBEntry where
  name : String
  points : ℚ
  bonus : ℚ
deriving DecidableEq

/-- The leaderboard row built for one `(player, picks)` entry of the
game record (src/app.py lines 919-925): base points from
`calculate_points` plus 5 for each milestone whose winner is the
player. -/
def leaderboard_entry (milestones : List Milestone) (price_of : String → Option ℚ)
    (e : String × List Pick) : LBEntry :=
  let bonus : ℚ := 5 * ((milestones.filter (fun m => m.winner == some e.1)).length : ℚ)
  ⟨e.1, calculate_points e.2 price_of + bonus, bonus⟩

/-- The leaderboard of the `/game` view (src/app.py lines 919-953):
one row per player in the record's iteration order, then
`leaderboard.sort(key=..., reverse=True)` — a stable descending sort
by points. -/
def game_leaderboard (picksMap : List (String × List Pick))
    (milestones : List Milestone) (price_of : String → Option ℚ) : List LBEntry :=
  (picksMap.map (leaderboard_entry milestones price_of)).mergeSort
    (fun a b => decide (b.points ≤ a.points))

/-- Modelled from the spec's words for the refinement claim about the
leaderboard: points are the mean percentage change plus 5 per milestone
won. -/
def spec_leaderboard_entry (milestones : List Milestone)
    (price_of : String → Option ℚ) (e : String × List Pick) : LBEntry :=
  let bonus : ℚ := 5 * ((milestones.filter (fun m => m.winner == some e.1)).length : ℚ)
  ⟨e.1, specMeanPercentChange e.2 price_of + bonus, bonus⟩

/-- `calculate_volatility` (src/app.py lines 205-221), with the
per-pick history computation abstracted into the oracle `volOf`:
`volOf p = some v` when the pick's history over the window is non-empty
and its annualized return standard deviation is `v`, and `none` when
the history is empty or the fetch raises.  The result is the mean over
the picks that yielded a series, or `float('inf')` if none did. -/
def calculate_volatility (picks : List Pick) (volOf : Pick → Option ℚ) : Vol :=
  let vs := picks.filterMap volOf
  if vs.isEmpty then Vol.inf else Vol.fin (vs.sum / (vs.length : ℚ))

/-- The minimum-search loop of the `lowest_volatility` milestone
resolution (src/app.py lines 906-913): running winner and running
minimum, updated only on a strictly smaller volatility. -/
def lvLoop (volOf : Pick → Option ℚ) :
    List (String × List Pick) → Option String × Vol → Option String × Vol
  | [], acc => acc
  | (pl, pks) :: rest, acc =>
      let v := calculate_volatility pks volOf
      lvLoop volOf rest (if v.ltb acc.2 then (some pl, v) else acc)

/-- `lowest_volatility` milestone resolution (src/app.py lines
906-915): scan all players' aggregate volatilities starting from
`(None, float('inf'))`. -/
def resolve_lowest_volatility (picksMap : List (String × List Pick))
    (volOf : Pick → Option ℚ) : Option String × Vol :=
  lvLoop volOf picksMap (none, Vol.inf)

/-- A concrete mid-draft game record ("AAPL" already drafted, A then B
still to pick), used to evaluate the draft handler on explicit
inputs. -/
def exDraftGame : GameData :=
  ⟨[⟨"A", 1, []⟩, ⟨"B", 1, []⟩], ["A", "B"], [], "draft", ["AAPL"], some "1 Quarter",
    some 0, some 90, [], [], [("A", 3), ("B", 3)]⟩

/-- A concrete post-draft game record with an already-accepted trade,
used to evaluate the respond handler on explicit inputs. -/
def exDoneGame : GameData :=
  ⟨[⟨"A", 1, ["X"]⟩, ⟨"B", 1, ["Y"]⟩], [], [("A", [⟨"X", 10, 0⟩]), ("B", [⟨"Y", 20, 0⟩])],
    "done", ["X", "Y"], some "1 Quarter", some 0, some 90,
    [⟨1, "A", "B", "X", "Y", "accepted"⟩], [], [("A", 2), ("B", 3)]⟩

/-- A concrete post-draft game record with a pending trade of A's "X"
for B's "Y", used to evaluate the accepted-trade swap on explicit
inputs. -/
def exPendingGame : GameData :=
  ⟨[⟨"A", 1, ["X"]⟩, ⟨"B", 1, ["Y"]⟩], [], [("A", [⟨"X", 10, 0⟩]), ("B", [⟨"Y", 20, 0⟩])],
    "done", ["X", "Y"], some "1 Quarter", some 0, some 90,
    [⟨1, "A", "B", "X", "Y", "pending"⟩], [], [("A", 2), ("B", 3)]⟩

/-! ## Helper lemmas -/

theorem lookup_assoc_set_self {β : Type} (m : List (String × β)) (k : String) (v : β)
    (h : (m.lookup k).isSome) : (assoc_set m k v).lookup k = some v := by
  induction m with
  | nil => simp at h
  | cons hd tl ih =>
      obtain ⟨k₁, v₁⟩ := hd
      by_cases hk : k₁ = k
      · subst hk
        simp [assoc_set]
      · have hk'' : (k == k₁) = false := beq_eq_false_iff_ne.mpr (Ne.symm hk)
        simp only [assoc_set, List.map, if_neg hk, List.lookup_cons, hk''] at h ⊢
        exact ih h

theorem lookup_assoc_set_ne {β : Type} (m : List (String × β)) (k k' : String) (v : β)
    (h : k' ≠ k) : (assoc_set m k v).lookup k' = m.lookup k' := by
  induction m with
  | nil => simp [assoc_set]
  | cons hd tl ih =>
      obtain ⟨k₁, v₁⟩ := hd
      by_cases hk : k₁ = k
      · subst hk
        have hk'' : (k' == k₁) = false := beq_eq_false_iff_ne.mpr h
        simpa [assoc_set, List.lookup_cons, hk''] using ih
      · by_cases he : k' = k₁
        · subst he
          simp [assoc_set, if_neg hk]
        · have he' : (k' == k₁) = false := beq_eq_false_iff_ne.mpr he
          simp only [assoc_set, List.map, if_neg hk, List.lookup_cons, he']
          exact ih

theorem lookup_append_single_self {β : Type} (m : List (String × β)) (k : String) (v : β)
    (h : m.lookup k = none) : (m ++ [(k, v)]).lookup k = some v := by
  rw [List.lookup_append, h]
  simp

theorem lookup_append_single_ne {β : Type} (m : List (String × β)) (k k' : String) (v : β)
    (h : k' ≠ k) : (m ++ [(k, v)]).lookup k' = m.lookup k' := by
  rw [List.lookup_append]
  have h' : (k' == k) = false := beq_eq_false_iff_ne.mpr h
  simp [List.lookup_cons, h']

theorem lookup_dict_insert_self {β : Type} (m : List (String × β)) (k : String) (v : β) :
    (dict_insert m k v).lookup k = some v := by
  unfold dict_insert
  by_cases h : (m.lookup k).isSome
  · rw [if_pos h]; exact lookup_assoc_set_self m k v h
  · rw [if_neg h]
    exact lookup_append_single_self m k v (Option.not_isSome_iff_eq_none.mp h)

theorem lookup_dict_insert_ne {β : Type} (m : List (String × β)) (k k' : String) (v : β)
    (h : k' ≠ k) : (dict_insert m k v).lookup k' = m.lookup k' := by
  unfold dict_insert
  by_cases hs : (m.lookup k).isSome
  · rw [if_pos hs]; exact lookup_assoc_set_ne m k k' v h
  · rw [if_neg hs]; exact lookup_append_single_ne m k k' v h

theorem fetchAux_one_le_calls (f : Nat → FetchSignal) (mr idl a : Nat) (h : a < mr) :
    1 ≤ (fetchAux f mr idl a).2.1 := by
  unfold fetchAux
  simp only [dif_pos h]
  cases hf : f a with
  | ok p => by_cases hp : p = 0 <;> simp [hp]
  | rateLimited => by_cases h2 : a + 1 < mr <;> simp [h2]
  | emptyHist => simp
  | httpError => simp
  | exn => simp

/-! ## C1: retry with exponential backoff -/

/-- C1: on a cache miss, if the quote source is rate-limited on the
first 4 calls and succeeds on the 5th with a (nonzero) price,
`getPrice` returns that price after exactly 5 underlying calls, having
slept 10+20+40+80 = 150 time-units; if the source is rate-limited on
every call, `getPrice` returns `none` (Unavailable) after exactly 5
underlying calls. -/
theorem getPrice_retry_backoff
    (cache : List (String × CacheEntry)) (now : ℚ) (ticker : String)
    (fetcher1 fetcher2 : Nat → FetchSignal) (p : ℚ)
    (hmiss : get_cached_stock_info cache now ticker 21600 = none)
    (h14 : ∀ i, i < 4 → fetcher1 i = .rateLimited)
    (h5 : fetcher1 4 = .ok p) (hp : p ≠ 0)
    (hall : ∀ i, i < 5 → fetcher2 i = .rateLimited) :
    ((getPrice cache now ticker fetcher1).result = some p ∧
      (getPrice cache now ticker fetcher1).calls = 5 ∧
      (getPrice cache now ticker fetcher1).slept = 150 ∧
      10 + 20 + 40 + 80 ≤ (getPrice cache now ticker fetcher1).slept) ∧
    (getPrice cache now ticker fetcher2).result = none ∧
      (getPrice cache now ticker fetcher2).calls = 5 := by
  have e4 : fetchAux fetcher1 5 10 4 = (some p, 1, 0) := by
    unfold fetchAux; simp [h5, hp]
  have e3 : fetchAux fetcher1 5 10 3 = (some p, 2, 80) := by
    unfold fetchAux; simp [h14 3 (by norm_num), e4]
  have e2 : fetchAux fetcher1 5 10 2 = (some p, 3, 120) := by
    unfold fetchAux; simp [h14 2 (by norm_num), e3]
  have e1 : fetchAux fetcher1 5 10 1 = (some p, 4, 140) := by
    unfold fetchAux; simp [h14 1 (by norm_num), e2]
  have e0 : fetch_stock_info fetcher1 = (some p, 5, 150) := by
    unfold fetch_stock_info fetchAux
    simp [h14 0 (by norm_num), e1]
  have g4 : fetchAux fetcher2 5 10 4 = (none, 1, 0) := by
    unfold fetchAux; simp [hall 4 (by norm_num)]
  have g3 : fetchAux fetcher2 5 10 3 = (none, 2, 80) := by
    unfold fetchAux; simp [hall 3 (by norm_num), g4]
  have g2 : fetchAux fetcher2 5 10 2 = (none, 3, 120) := by
    unfold fetchAux; simp [hall 2 (by norm_num), g3]
  have g1 : fetchAux fetcher2 5 10 1 = (none, 4, 140) := by
    unfold fetchAux; simp [hall 1 (by norm_num), g2]
  have g0 : fetch_stock_info fetcher2 = (none, 5, 150) := by
    unfold fetch_stock_info fetchAux
    simp [hall 0 (by norm_num), g1]
  constructor
  · simp [getPrice, hmiss, e0]
  · simp [getPrice, hmiss, g0]

/-- C1 witness: the retry/backoff theorem evaluated on the empty cache
with two explicit fetch oracles. -/
theorem getPrice_retry_backoff_witness :
    get_cached_stock_info [] 0 "AAPL" 21600 = none ∧
    (((getPrice [] 0 "AAPL"
        (fun i => if i < 4 then FetchSignal.rateLimited else FetchSignal.ok 5)).result =
          some 5 ∧
      (getPrice [] 0 "AAPL"
        (fun i => if i < 4 then FetchSignal.rateLimited else FetchSignal.ok 5)).calls = 5 ∧
      (getPrice [] 0 "AAPL"
        (fun i => if i < 4 then FetchSignal.rateLimited else FetchSignal.ok 5)).slept = 150 ∧
      10 + 20 + 40 + 80 ≤ (getPrice [] 0 "AAPL"
        (fun i => if i < 4 then FetchSignal.rateLimited else FetchSignal.ok 5)).slept) ∧
    (getPrice [] 0 "AAPL" (fun _ => FetchSignal.rateLimited)).result = none ∧
      (getPrice [] 0 "AAPL" (fun _ => FetchSignal.rateLimited)).calls = 5) :=
  ⟨rfl, getPrice_retry_backoff [] 0 "AAPL" _ _ 5 rfl (fun _ hi => if_pos hi) rfl
    (by norm_num) (fun _ _ => rfl)⟩

/-! ## C2: cache TTL -/

/-- C2: a cache entry for the upper-cased ticker younger than the
21600-unit TTL is served without any quote-source call and without
changing the cache; when the entry is absent or at least TTL old, the
quote source is called at least once, and a successful fetch overwrites
the entry for the upper-cased ticker with the new price and the
current time stamp. -/
theorem getPrice_cache_ttl
    (cache : List (String × CacheEntry)) (now : ℚ) (ticker : String)
    (fetcher : Nat → FetchSignal) :
    (∀ e, cache.lookup (pyUpper ticker) = some e → now - e.timestamp < 21600 →
        getPrice cache now ticker fetcher = ⟨some e.info, cache, 0, 0⟩) ∧
    ((cache.lookup (pyUpper ticker) = none ∨
        ∃ e, cache.lookup (pyUpper ticker) = some e ∧ 21600 ≤ now - e.timestamp) →
      1 ≤ (getPrice cache now ticker fetcher).calls ∧
      ∀ p, (getPrice cache now ticker fetcher).result = some p →
        ((getPrice cache now ticker fetcher).cache).lookup (pyUpper ticker) =
          some ⟨p, now⟩) := by
  constructor
  · intro e he hage
    have hc : get_cached_stock_info cache now ticker 21600 = some e.info := by
      unfold get_cached_stock_info
      rw [he]
      simp [hage]
    simp [getPrice, hc]
  · intro h
    have hmiss : get_cached_stock_info cache now ticker 21600 = none := by
      unfold get_cached_stock_info
      rcases h with h | ⟨e, he, hage⟩
      · rw [h]
      · rw [he]
        simp [not_lt.mpr hage]
    have hcalls : 1 ≤ (fetch_stock_info fetcher).2.1 :=
      fetchAux_one_le_calls fetcher 5 10 0 (by norm_num)
    cases hr : (fetch_stock_info fetcher).1 with
    | none =>
        constructor
        · simpa [getPrice, hmiss, hr] using hcalls
        · intro p hres
          simp [getPrice, hmiss, hr] at hres
    | some q =>
        constructor
        · simpa [getPrice, hmiss, hr] using hcalls
        · intro p hres
          simp only [getPrice, hmiss, hr] at hres ⊢
          have hpq : q = p := by simpa using hres
          subst hpq
          exact lookup_dict_insert_self cache (pyUpper ticker) ⟨q, now⟩

/-- C2 witness: the TTL theorem evaluated on a one-entry cache, once
fresh (read at 200, entry stamped 100) and once stale (read at
30000). -/
theorem getPrice_cache_ttl_witness :
    getPrice [("AAPL", ⟨5, 100⟩)] 200 "aapl" (fun _ => FetchSignal.ok 7) =
      ⟨some 5, [("AAPL", ⟨5, 100⟩)], 0, 0⟩ ∧
    (1 ≤ (getPrice [("AAPL", ⟨5, 100⟩)] 30000 "aapl" (fun _ => FetchSignal.ok 7)).calls ∧
      ∀ p,
        (getPrice [("AAPL", ⟨5, 100⟩)] 30000 "aapl" (fun _ => FetchSignal.ok 7)).result =
          some p →
        ((getPrice [("AAPL", ⟨5, 100⟩)] 30000 "aapl"
            (fun _ => FetchSignal.ok 7)).cache).lookup (pyUpper "aapl") = some ⟨p, 30000⟩) :=
  ⟨(getPrice_cache_ttl [("AAPL", ⟨5, 100⟩)] 200 "aapl" (fun _ => FetchSignal.ok 7)).1
      ⟨5, 100⟩ (by decide) (by norm_num),
   (getPrice_cache_ttl [("AAPL", ⟨5, 100⟩)] 30000 "aapl" (fun _ => FetchSignal.ok 7)).2
      (Or.inr ⟨⟨5, 100⟩, by decide, by norm_num⟩)⟩

/-! ## C5: end-of-game phase check -/

/-- C5 counterexample: a `/game` read with the record in the `draft`
phase and a past `end_date` sets the status to `finished`, although the
phase is not `done` — refuting "transitions to finished exactly when
the current time has passed end_date and the phase is done" and
"a read while the phase is setup or draft never sets the phase to
finished". -/
theorem game_check_expiry_draft_jump :
    game_check_expiry "draft" (some 0) 1 = "finished" ∧ "draft" ≠ "done" :=
  ⟨rfl, by decide⟩

/-- C5 (amended): the game-summary read sets the phase to `finished`
exactly when an `end_date` is present and the current time is strictly
past it, regardless of the current phase; with no `end_date` (as in the
`setup` phase) the status is left unchanged. -/
theorem game_check_expiry_amended (status : String) (ed now : ℚ) :
    (now > ed → game_check_expiry status (some ed) now = "finished") ∧
    (¬ now > ed → game_check_expiry status (some ed) now = status) ∧
    game_check_expiry status none now = status := by
  refine ⟨fun h => ?_, fun h => ?_, rfl⟩ <;> simp [game_check_expiry, h]

/-- C5 witness: the amended theorem evaluated in the `done` phase with
a past end date. -/
theorem game_check_expiry_amended_witness :
    ((1 : ℚ) > 0) ∧ game_check_expiry "done" (some 0) 1 = "finished" :=
  ⟨by norm_num, (game_check_expiry_amended "done" 0 1).1 (by norm_num)⟩

/-! ## C8: snake draft order -/

theorem get_snake_order_succ (players : List String) (r : Nat) :
    get_snake_order players (r + 1) =
      get_snake_order players r ++ (if r % 2 = 0 then players else players.reverse) := by
  unfold get_snake_order
  rw [List.range_succ, List.foldl_append]
  rfl

theorem get_snake_order_length (players : List String) (r : Nat) :
    (get_snake_order players r).length = players.length * r := by
  induction r with
  | zero => rfl
  | succ n ih =>
      rw [get_snake_order_succ, List.length_append, ih]
      by_cases h : n % 2 = 0 <;> simp [h, Nat.mul_succ]

/-- C8: for any player list and round count, the pre-computed snake
draft queue has length `N × R`, and the block of round `i` (0-indexed)
is the player list forward when `i` is even and reversed when `i` is
odd. -/
theorem get_snake_order_spec (players : List String) (total_rounds : Nat) :
    (get_snake_order players total_rounds).length = players.length * total_rounds ∧
    ∀ i, i < total_rounds →
      ((get_snake_order players total_rounds).drop (i * players.length)).take
          players.length =
        (if i % 2 = 0 then players else players.reverse) := by
  refine ⟨get_snake_order_length players total_rounds, ?_⟩
  induction total_rounds with
  | zero => intro i hi; omega
  | succ n ih =>
      intro i hi
      rw [get_snake_order_succ]
      rcases Nat.lt_succ_iff_lt_or_eq.mp hi with h | h
      · have hle : i * players.length + players.length ≤
            (get_snake_order players n).length := by
          rw [get_snake_order_length]
          have h1 : (i + 1) * players.length ≤ n * players.length :=
            Nat.mul_le_mul_right _ h
          calc i * players.length + players.length = (i + 1) * players.length := by ring
            _ ≤ n * players.length := h1
            _ = players.length * n := by ring
        rw [List.drop_append_of_le_length (by omega),
          List.take_append_of_le_length (by
            rw [List.length_drop]
            omega),
          ih i h]
      · subst h
        have hl : (get_snake_order players i).length = i * players.length := by
          rw [get_snake_order_length]; ring
        rw [← hl, List.drop_left]
        by_cases hp : i % 2 = 0
        · simp only [if_pos hp]
          exact List.take_length players
        · simp only [if_neg hp]
          have : players.length = players.reverse.length := (List.length_reverse _).symm
          rw [this]
          exact List.take_length players.reverse

/-- C8 witness: the snake-order theorem at 2 players and 3 rounds,
extracting the odd round 1 (reversed). -/
theorem get_snake_order_spec_witness :
    (get_snake_order ["A", "B"] 3).length = 2 * 3 ∧
    1 < 3 ∧
    ((get_snake_order ["A", "B"] 3).drop (1 * 2)).take 2 = ["B", "A"] := by
  have h := get_snake_order_spec ["A", "B"] 3
  refine ⟨by simpa using h.1, by norm_num, ?_⟩
  simpa using h.2 1 (by norm_num)

/-! ## C9: duplicate-ticker rejection -/

/-- C9: once the normalized (upper-cased, stripped) ticker is in the
global drafted set, a draft submission for it by any player, with any
price-resolution outcome, fails with the duplicate error and leaves the
persisted game record unchanged. -/
theorem draft_submit_duplicate
    (d : GameData) (name rawTicker : String) (priceRes : Option ℚ) (now : ℚ)
    (ht : pyStrip (pyUpper rawTicker) ≠ "")
    (hdup : pyStrip (pyUpper rawTicker) ∈ d.all_picks) :
    draft_submit d name rawTicker priceRes now = (d, some DraftError.duplicate) := by
  unfold draft_submit
  simp [ht, hdup]

/-- C9 witness: the duplicate theorem on the mid-draft record with
"AAPL" drafted and a lower-case resubmission by the non-owner. -/
theorem draft_submit_duplicate_witness :
    (pyStrip (pyUpper "aapl") ≠ "" ∧ pyStrip (pyUpper "aapl") ∈ exDraftGame.all_picks) ∧
    draft_submit exDraftGame "B" "aapl" (some 10) 0 =
      (exDraftGame, some DraftError.duplicate) :=
  ⟨⟨by decide, by decide⟩,
   draft_submit_duplicate exDraftGame "B" "aapl" (some 10) 0 (by decide) (by decide)⟩

/-! ## C6: draft queue removal -/

/-- C6 counterexample: in the mid-draft record the front of the queue
is "A", yet a submission by "B" (fresh ticker, available price)
succeeds — no InvalidTurn rejection — records the pick, and removes
"B"'s entry rather than the front entry. -/
theorem draft_submit_stale_turn_accepted :
    exDraftGame.draft_order.head? = some "A" ∧
    (draft_submit exDraftGame "B" "MSFT" (some 10) 0).2 = none ∧
    (draft_submit exDraftGame "B" "MSFT" (some 10) 0).1.all_picks = ["AAPL", "MSFT"] ∧
    (draft_submit exDraftGame "B" "MSFT" (some 10) 0).1.draft_order = ["A"] := by
  refine ⟨rfl, ?_, ?_, ?_⟩ <;> decide

/-- C6 (amended): a successful draft submission removes the first
occurrence of the submitting player's name from the draft queue — the
front entry exactly when the front matches the player; a submission by
a player who is not at the front is not rejected as a stale turn. -/
theorem draft_submit_removes_first_occurrence
    (d : GameData) (name rawTicker : String) (current now : ℚ)
    (ht : pyStrip (pyUpper rawTicker) ≠ "")
    (hdup : pyStrip (pyUpper rawTicker) ∉ d.all_picks)
    (hq : name ∈ d.draft_order) :
    (draft_submit d name rawTicker (some current) now).2 = none ∧
    (draft_submit d name rawTicker (some current) now).1.draft_order =
      d.draft_order.erase name ∧
    (d.draft_order.head? = some name →
      (draft_submit d name rawTicker (some current) now).1.draft_order =
        d.draft_order.tail) := by
  unfold draft_submit
  simp only [ht, hdup, hq, if_neg, if_pos, ite_true, ite_false]
  refine ⟨by simp [ht, hdup], by simp [ht, hdup], ?_⟩
  intro hh
  cases hd : d.draft_order with
  | nil => rw [hd] at hh; simp at hh
  | cons a t =>
      rw [hd] at hh
      simp only [List.head?_cons, Option.some.injEq] at hh
      subst hh
      simp [ht, hdup, hd, List.erase_cons_head]

/-- C6 witness: the amended theorem with the front player "A"
submitting; the front entry is removed. -/
theorem draft_submit_removes_first_occurrence_witness :
    (pyStrip (pyUpper "msft") ≠ "" ∧ pyStrip (pyUpper "msft") ∉ exDraftGame.all_picks ∧
      "A" ∈ exDraftGame.draft_order) ∧
    (draft_submit exDraftGame "A" "msft" (some 10) 0).2 = none ∧
    (draft_submit exDraftGame "A" "msft" (some 10) 0).1.draft_order =
      exDraftGame.draft_order.erase "A" ∧
    (exDraftGame.draft_order.head? = some "A" →
      (draft_submit exDraftGame "A" "msft" (some 10) 0).1.draft_order =
        exDraftGame.draft_order.tail) :=
  ⟨⟨by decide, by decide, by decide⟩,
   draft_submit_removes_first_occurrence exDraftGame "A" "msft" 10 0
     (by decide) (by decide) (by decide)⟩

/-! ## C4: responding to a trade -/

theorem find_set_trade_status (ts : List Trade) (tid : Nat) (resp : String) (t : Trade)
    (h : ts.find? (fun tr => tr.id == tid) = some t) :
    (set_trade_status ts tid resp).find? (fun tr => tr.id == tid) =
      some { t with status := resp } := by
  induction ts with
  | nil => simp at h
  | cons hd tl ih =>
      by_cases hh : (hd.id == tid) = true
      · rw [List.find?_cons, hh] at h
        obtain rfl : hd = t := by simpa using h
        unfold set_trade_status
        rw [if_pos hh]
        rw [List.find?_cons]
        have hh2 : ({ hd with status := resp } : Trade).id == tid := hh
        rw [hh2]
      · rw [List.find?_cons] at h
        rw [Bool.not_eq_true] at hh
        rw [hh] at h
        unfold set_trade_status
        rw [if_neg (by simp [hh]), List.find?_cons, hh]
        exact ih h

/-- C4 counterexample: the record `exDoneGame` holds trade 1 in the
terminal status `accepted`; a later `respond(1, rejected)` is not a
no-op — it overwrites the trade's status with `rejected`, re-opening
the supposedly one-way transition. -/
theorem trade_respond_overwrites_terminal :
    exDoneGame.trades = [⟨1, "A", "B", "X", "Y", "accepted"⟩] ∧
    trade_respond exDoneGame 1 "rejected" =
      some { exDoneGame with trades := [⟨1, "A", "B", "X", "Y", "rejected"⟩] } ∧
    trade_respond exDoneGame 1 "rejected" ≠ some exDoneGame := by
  refine ⟨rfl, by decide, by decide⟩

/-- C4 (amended): `respond` is a silent no-op exactly when no trade at
all (of any status) carries the given id; when a trade with the id
exists, its status is unconditionally overwritten with the response —
the pending → terminal transition is not enforced — while players,
picks and the rest of the record stay unchanged for a non-`accepted`
response (an `accepted` response additionally re-runs the pick
swap). -/
theorem trade_respond_amended (d : GameData) (tid : Nat) (resp : String) :
    (d.trades.find? (fun tr => tr.id == tid) = none →
      trade_respond d tid resp = some d) ∧
    (∀ t, d.trades.find? (fun tr => tr.id == tid) = some t → resp ≠ "accepted" →
      ∃ d', trade_respond d tid resp = some d' ∧
        d'.players = d.players ∧ d'.picks = d.picks ∧ d'.status = d.status ∧
        d'.trades.find? (fun tr => tr.id == tid) = some { t with status := resp }) := by
  constructor
  · intro h
    unfold trade_respond
    rw [h]
  · intro t ht hresp
    have hr : (resp == "accepted") = false := beq_eq_false_iff_ne.mpr hresp
    unfold trade_respond
    rw [ht]
    simp only [hr, Bool.false_eq_true, if_false]
    exact ⟨_, rfl, rfl, rfl, rfl, find_set_trade_status d.trades tid resp t ht⟩

/-- C4 witness: the amended theorem on `exDoneGame`, for a missing id
(2) and for the existing accepted trade 1 being overwritten with
`rejected`. -/
theorem trade_respond_amended_witness :
    (exDoneGame.trades.find? (fun tr => tr.id == 2) = none ∧
      trade_respond exDoneGame 2 "rejected" = some exDoneGame) ∧
    (exDoneGame.trades.find? (fun tr => tr.id == 1) =
        some ⟨1, "A", "B", "X", "Y", "accepted"⟩ ∧
      ∃ d', trade_respond exDoneGame 1 "rejected" = some d' ∧
        d'.players = exDoneGame.players ∧ d'.picks = exDoneGame.picks ∧
        d'.status = exDoneGame.status ∧
        d'.trades.find? (fun tr => tr.id == 1) =
          some ⟨1, "A", "B", "X", "Y", "rejected"⟩) :=
  ⟨⟨by decide, (trade_respond_amended exDoneGame 2 "rejected").1 (by decide)⟩,
   ⟨by decide, (trade_respond_amended exDoneGame 1 "rejected").2
      ⟨1, "A", "B", "X", "Y", "accepted"⟩ (by decide) (by decide)⟩⟩

/-! ## C10: lowest-volatility milestone -/

theorem vol_leb_refl (a : Vol) : a.leb a := by
  cases a <;> simp [Vol.leb]

theorem vol_leb_trans (a b c : Vol) (h1 : a.leb b) (h2 : b.leb c) : a.leb c := by
  cases a <;> cases b <;> cases c <;> simp_all [Vol.leb]
  linarith

theorem vol_ltb_leb (a b : Vol) (h : a.ltb b = true) : a.leb b := by
  cases a <;> cases b <;> simp_all [Vol.ltb, Vol.leb]
  linarith

theorem vol_not_ltb (a b : Vol) (h : a.ltb b = false) : b.leb a := by
  cases a <;> cases b <;> simp_all [Vol.ltb, Vol.leb]

theorem vol_inf_ltb (m : Vol) : Vol.inf.ltb m = false := rfl

theorem lvLoop_min (volOf : Pick → Option ℚ) (l : List (String × List Pick))
    (acc : Option String × Vol) :
    (lvLoop volOf l acc).2.leb acc.2 ∧
    ∀ e ∈ l, (lvLoop volOf l acc).2.leb (calculate_volatility e.2 volOf) := by
  induction l generalizing acc with
  | nil => exact ⟨vol_leb_refl _, by simp⟩
  | cons hd rest ih =>
      obtain ⟨pl, pks⟩ := hd
      simp only [lvLoop]
      cases hv : (calculate_volatility pks volOf).ltb acc.2 with
      | true =>
          simp only [if_pos rfl]
          obtain ⟨ihl, ihr⟩ := ih (some pl, calculate_volatility pks volOf)
          refine ⟨vol_leb_trans _ _ _ ihl (vol_ltb_leb _ _ hv), ?_⟩
          intro e he
          rcases List.mem_cons.mp he with rfl | he'
          · exact ihl
          · exact ihr e he'
      | false =>
          simp only [Bool.false_eq_true, if_false]
          obtain ⟨ihl, ihr⟩ := ih acc
          refine ⟨ihl, ?_⟩
          intro e he
          rcases List.mem_cons.mp he with rfl | he'
          · exact vol_leb_trans _ _ _ ihl (vol_not_ltb _ _ hv)
          · exact ihr e he'

theorem lvLoop_winner (volOf : Pick → Option ℚ) (l : List (String × List Pick))
    (acc : Option String × Vol) :
    lvLoop volOf l acc = acc ∨
    ∃ e ∈ l, (lvLoop volOf l acc).1 = some e.1 ∧
      (lvLoop volOf l acc).2 = calculate_volatility e.2 volOf ∧
      calculate_volatility e.2 volOf ≠ Vol.inf := by
  induction l generalizing acc with
  | nil => exact Or.inl rfl
  | cons hd rest ih =>
      obtain ⟨pl, pks⟩ := hd
      simp only [lvLoop]
      cases hv : (calculate_volatility pks volOf).ltb acc.2 with
      | true =>
          simp only [if_pos rfl]
          have hne : calculate_volatility pks volOf ≠ Vol.inf := by
            intro hinf
            rw [hinf, vol_inf_ltb] at hv
            exact Bool.false_ne_true hv
          rcases ih (some pl, calculate_volatility pks volOf) with heq | ⟨e, he, h1, h2, h3⟩
          · refine Or.inr ⟨(pl, pks), List.mem_cons_self _ _, ?_, ?_, hne⟩
            · simp [heq]
            · simp [heq]
          · exact Or.inr ⟨e, List.mem_cons_of_mem _ he, h1, h2, h3⟩
      | false =>
          simp only [Bool.false_eq_true, if_false]
          rcases ih acc with heq | ⟨e, he, h1, h2, h3⟩
          · exact Or.inl heq
          · exact Or.inr ⟨e, List.mem_cons_of_mem _ he, h1, h2, h3⟩

/-- C10: when the `lowest_volatility` milestone resolves, an
infinite-volatility player (no pick yielded a series) never wins: any
winner has a finite aggregate volatility that is a minimum over all
players; and when every player's volatility is infinite the winner is
left `None` (unresolved) rather than an arbitrary player. -/
theorem resolve_lowest_volatility_spec (picksMap : List (String × List Pick))
    (volOf : Pick → Option ℚ) :
    ((∀ e ∈ picksMap, calculate_volatility e.2 volOf = Vol.inf) →
      (resolve_lowest_volatility picksMap volOf).1 = none) ∧
    (∀ q, (resolve_lowest_volatility picksMap volOf).1 = some q →
      ∃ pks v, (q, pks) ∈ picksMap ∧
        calculate_volatility pks volOf = Vol.fin v ∧
        ∀ e ∈ picksMap,
          Vol.leb (Vol.fin v) (calculate_volatility e.2 volOf)) := by
  constructor
  · intro hall
    unfold resolve_lowest_volatility
    rcases lvLoop_winner volOf picksMap (none, Vol.inf) with heq | ⟨e, he, h1, h2, h3⟩
    · rw [heq]
    · exact absurd (hall e he) h3
  · intro q hq
    unfold resolve_lowest_volatility at hq
    rcases lvLoop_winner volOf picksMap (none, Vol.inf) with heq | ⟨e, he, h1, h2, h3⟩
    · rw [heq] at hq
      exact absurd hq (by simp)
    · rw [h1] at hq
      obtain rfl : e.1 = q := by simpa using hq
      obtain ⟨v, hv⟩ : ∃ v, calculate_volatility e.2 volOf = Vol.fin v := by
        cases hc : calculate_volatility e.2 volOf with
        | fin v => exact ⟨v, rfl⟩
        | inf => exact absurd hc h3
      refine ⟨e.2, v, by simpa using he, hv, ?_⟩
      intro e' he'
      have hmin := (lvLoop_min volOf picksMap (none, Vol.inf)).2 e' he'
      unfold resolve_lowest_volatility at hmin
      rw [show (lvLoop volOf picksMap (none, Vol.inf)).2 =
        calculate_volatility e.2 volOf from h2, hv] at hmin
      exact hmin

/-- C10 witness: on the two-player picks map, with an oracle giving a
series only for "X", the winner is A with finite minimal volatility;
with an oracle giving no series at all, the winner stays `None`. -/
theorem resolve_lowest_volatility_spec_witness :
    ((resolve_lowest_volatility exPendingGame.picks
        (fun p => if p.ticker == "X" then some 2 else none)).1 = some "A" ∧
      ∃ pks v, ("A", pks) ∈ exPendingGame.picks ∧
        calculate_volatility pks (fun p => if p.ticker == "X" then some 2 else none) =
          Vol.fin v ∧
        ∀ e ∈ exPendingGame.picks,
          Vol.leb (Vol.fin v)
            (calculate_volatility e.2
              (fun p => if p.ticker == "X" then some 2 else none))) ∧
    ((∀ e ∈ exPendingGame.picks,
        calculate_volatility e.2 (fun _ => none) = Vol.inf) ∧
      (resolve_lowest_volatility exPendingGame.picks (fun _ => none)).1 = none) :=
  ⟨⟨by decide,
    (resolve_lowest_volatility_spec exPendingGame.picks
      (fun p => if p.ticker == "X" then some 2 else none)).2 "A" (by decide)⟩,
   ⟨by decide,
    (resolve_lowest_volatility_spec exPendingGame.picks (fun _ => none)).1
      (by decide)⟩⟩

/-! ## C7: points and leaderboard -/

theorem cpLoop_eq (price_of : String → Option ℚ) (picks : List Pick) (tc : ℚ) (c : Nat)
    (hz : ∀ p ∈ picks, p.price ≠ 0) :
    cpLoop price_of picks tc c =
      (tc + (specChanges picks price_of).sum,
        c + (specChanges picks price_of).length) := by
  induction picks generalizing tc c with
  | nil => simp [cpLoop, specChanges]
  | cons p rest ih =>
      have hp : p.price ≠ 0 := hz p (List.mem_cons_self _ _)
      have hz' : ∀ q ∈ rest, q.price ≠ 0 := fun q hq => hz q (List.mem_cons_of_mem _ hq)
      cases ho : price_of p.ticker with
      | none =>
          simp only [cpLoop, ho, specChanges, List.filterMap_cons, Option.map_none]
          exact ih tc c hz'
      | some cur =>
          have hs : specChanges (p :: rest) price_of =
              ((cur - p.price) / p.price * 100) :: specChanges rest price_of := by
            simp [specChanges, ho]
          simp only [cpLoop, ho, if_neg hp, hs, List.sum_cons, List.length_cons]
          rw [ih _ _ hz', Prod.mk.injEq]
          constructor
          · ring
          · omega

theorem calculate_points_eq_spec (picks : List Pick) (price_of : String → Option ℚ)
    (hz : ∀ p ∈ picks, p.price ≠ 0) :
    calculate_points picks price_of = specMeanPercentChange picks price_of := by
  unfold calculate_points specMeanPercentChange
  by_cases hnil : picks.isEmpty
  · obtain rfl : picks = [] := List.isEmpty_iff.mp hnil
    simp [specChanges]
  · rw [if_neg hnil, cpLoop_eq price_of picks 0 0 hz]
    simp only [zero_add]
    by_cases hlen : (specChanges picks price_of).length = 0
    · obtain he : specChanges picks price_of = [] := List.length_eq_zero.mp hlen
      simp [he]
    · have hpos : 0 < (specChanges picks price_of).length := Nat.pos_of_ne_zero hlen
      have he : ¬(specChanges picks price_of).isEmpty := by
        intro hc
        exact hlen (by simp [List.isEmpty_iff.mp hc])
      simp [hpos, he]

theorem leaderboard_entry_eq_spec (ms : List Milestone) (price_of : String → Option ℚ)
    (e : String × List Pick) (hz : ∀ p ∈ e.2, p.price ≠ 0) :
    leaderboard_entry ms price_of e = spec_leaderboard_entry ms price_of e := by
  unfold leaderboard_entry spec_leaderboard_entry
  rw [calculate_points_eq_spec _ _ hz]

theorem mergeSort_filter_eq {α : Type} (le : α → α → Bool)
    (htrans : ∀ a b c, le a b → le b c → le a c)
    (htotal : ∀ a b, le a b || le b a)
    (c : α → Bool) (hc : ∀ a b, c a → c b → le a b) (l : List α) :
    (l.mergeSort le).filter c = l.filter c := by
  have hpair : (l.filter c).Pairwise (le · ·) := by
    apply List.pairwise_of_forall_mem_list
    intro a ha b hb
    exact hc a b (List.of_mem_filter ha) (List.of_mem_filter hb)
  have hsub : List.Sublist (l.filter c) l := List.filter_sublist l
  have h1 : List.Sublist (l.filter c) (l.mergeSort le) :=
    List.sublist_mergeSort htrans htotal hpair hsub
  have hself : (l.filter c).filter c = l.filter c :=
    List.filter_eq_self.mpr (fun a ha => List.of_mem_filter ha)
  have h2 : List.Sublist (l.filter c) ((l.mergeSort le).filter c) := by
    have h3 := h1.filter c
    rwa [hself] at h3
  have hperm : List.Perm ((l.mergeSort le).filter c) (l.filter c) :=
    (List.mergeSort_perm l le).filter c
  exact (h2.eq_of_length hperm.length_eq.symm).symm

/-- C7: each leaderboard row's points equal the arithmetic mean of
`(current − draftPrice) / draftPrice × 100` over the player's picks
with an available current price (0 if none), rounded to 2 decimals,
plus 5 per milestone the player has won; the leaderboard is a
permutation of those per-player rows, sorted descending by points, and
rows with equal points keep the original iteration order (the filter at
each points value is unchanged).  The zero-free hypothesis reflects
that draft prices are recorded only when truthy (nonzero). -/
theorem game_leaderboard_spec (pm : List (String × List Pick)) (ms : List Milestone)
    (price_of : String → Option ℚ)
    (hz : ∀ e ∈ pm, ∀ p ∈ e.2, p.price ≠ 0) :
    List.Perm (game_leaderboard pm ms price_of)
      (pm.map (spec_leaderboard_entry ms price_of)) ∧
    (game_leaderboard pm ms price_of).Pairwise (fun a b => b.points ≤ a.points) ∧
    ∀ q : ℚ,
      (game_leaderboard pm ms price_of).filter (fun e => decide (e.points = q)) =
        (pm.map (spec_leaderboard_entry ms price_of)).filter
          (fun e => decide (e.points = q)) := by
  have hmap : pm.map (leaderboard_entry ms price_of) =
      pm.map (spec_leaderboard_entry ms price_of) :=
    List.map_congr_left (fun e he => leaderboard_entry_eq_spec ms price_of e (hz e he))
  have htrans : ∀ a b c : LBEntry, (decide (b.points ≤ a.points)) →
      (decide (c.points ≤ b.points)) → (decide (c.points ≤ a.points)) := by
    intro a b c h1 h2
    have g1 := of_decide_eq_true h1
    have g2 := of_decide_eq_true h2
    exact decide_eq_true (le_trans g2 g1)
  have htotal : ∀ a b : LBEntry,
      (decide (b.points ≤ a.points) || decide (a.points ≤ b.points)) := by
    intro a b
    rcases le_total b.points a.points with h | h <;> simp [h]
  refine ⟨?_, ?_, ?_⟩
  · unfold game_leaderboard
    rw [hmap]
    exact List.mergeSort_perm _ _
  · unfold game_leaderboard
    have hs := List.sorted_mergeSort htrans htotal (pm.map (leaderboard_entry ms price_of))
    exact hs.imp (fun h => of_decide_eq_true h)
  · intro q
    unfold game_leaderboard
    rw [hmap]
    refine mergeSort_filter_eq _ htrans htotal _ ?_ _
    intro a b ha hb
    have ga := of_decide_eq_true ha
    have gb := of_decide_eq_true hb
    exact decide_eq_true (by rw [ga, gb])

/-- C7 witness: the leaderboard theorem on the two-player picks map
with one milestone won by A and an oracle pricing only "X". -/
theorem game_leaderboard_spec_witness :
    (∀ e ∈ exPendingGame.picks, ∀ p ∈ e.2, p.price ≠ 0) ∧
    List.Perm
      (game_leaderboard exPendingGame.picks
        [⟨30, "highest_gain", some "A", Vol.fin 1⟩]
        (fun t => if t == "X" then some 11 else none))
      (exPendingGame.picks.map
        (spec_leaderboard_entry [⟨30, "highest_gain", some "A", Vol.fin 1⟩]
          (fun t => if t == "X" then some 11 else none))) ∧
    (game_leaderboard exPendingGame.picks
        [⟨30, "highest_gain", some "A", Vol.fin 1⟩]
        (fun t => if t == "X" then some 11 else none)).Pairwise
      (fun a b => b.points ≤ a.points) :=
  ⟨by decide,
   (game_leaderboard_spec exPendingGame.picks
      [⟨30, "highest_gain", some "A", Vol.fin 1⟩]
      (fun t => if t == "X" then some 11 else none) (by decide)).1,
   (game_leaderboard_spec exPendingGame.picks
      [⟨30, "highest_gain", some "A", Vol.fin 1⟩]
      (fun t => if t == "X" then some 11 else none) (by decide)).2.1⟩

/-! ## C3: accepted trade swaps the two picks -/

theorem erase_map_ticker (l : List Pick) (tk : String) (fp : Pick)
    (h : l.find? (fun p => p.ticker == tk) = some fp) :
    (l.erase fp).map Pick.ticker = (l.map Pick.ticker).erase tk := by
  induction l with
  | nil => simp at h
  | cons p rest ih =>
      rw [List.find?_cons] at h
      by_cases hpt : (p.ticker == tk) = true
      · rw [hpt] at h
        obtain rfl : p = fp := by simpa using h
        have htk : p.ticker = tk := by simpa using hpt
        rw [List.erase_cons_head, List.map_cons, List.erase_cons, htk]
        simp
      · rw [Bool.not_eq_true] at hpt
        rw [hpt] at h
        have hne : (p == fp) = false := by
          apply beq_eq_false_iff_ne.mpr
          intro hpe
          have hft : fp.ticker = tk := by simpa using List.find?_some h
          rw [hpe, hft] at hpt
          simp at hpt
        rw [List.erase_cons, hne]
        simp only [Bool.false_eq_true, if_false, List.map_cons, List.erase_cons, hpt]
        rw [ih h]

theorem mapM_eq_some_map {α β : Type} (f : α → Option β) (g : α → β) (l : List α)
    (h : ∀ a ∈ l, f a = some (g a)) : l.mapM f = some (l.map g) := by
  induction l with
  | nil => rfl
  | cons a tl ih =>
      rw [List.mapM_cons, h a (List.mem_cons_self _ _),
        ih (fun b hb => h b (List.mem_cons_of_mem _ hb))]
      rfl

/-- C3: accepting a pending trade between distinct players, where the
from-player holds exactly one pick for the offered ticker and none for
the requested one and symmetrically for the to-player, swaps exactly
those two picks: afterwards the from-player's pick list contains the
requested ticker and not the offered one, the to-player's contains the
offered and not the requested one, the total pick count over the two
players is unchanged, and every player's derived `picked` ticker list
again equals the tickers of their pick list. -/
theorem trade_accept_swaps (d : GameData) (tid : Nat) (t : Trade)
    (fromPicks toPicks : List Pick)
    (hfind : d.trades.find? (fun tr => tr.id == tid) = some t)
    (_hstat : t.status = "pending")
    (hne : t.from_player ≠ t.to_player)
    (hfp : d.picks.lookup t.from_player = some fromPicks)
    (htp : d.picks.lookup t.to_player = some toPicks)
    (hc1 : (fromPicks.map Pick.ticker).count t.offer_ticker = 1)
    (hc2 : (fromPicks.map Pick.ticker).count t.request_ticker = 0)
    (hc3 : (toPicks.map Pick.ticker).count t.request_ticker = 1)
    (_hc4 : (toPicks.map Pick.ticker).count t.offer_ticker = 0)
    (hinv : ∀ p ∈ d.players,
      p.picked = ((d.picks.lookup p.name).getD []).map Pick.ticker) :
    ∃ d', trade_respond d tid "accepted" = some d' ∧
      ∃ fromPicks' toPicks',
        d'.picks.lookup t.from_player = some fromPicks' ∧
        d'.picks.lookup t.to_player = some toPicks' ∧
        t.request_ticker ∈ fromPicks'.map Pick.ticker ∧
        t.offer_ticker ∉ fromPicks'.map Pick.ticker ∧
        t.offer_ticker ∈ toPicks'.map Pick.ticker ∧
        t.request_ticker ∉ toPicks'.map Pick.ticker ∧
        fromPicks'.length + toPicks'.length = fromPicks.length + toPicks.length ∧
        ∀ p ∈ d'.players,
          p.picked = ((d'.picks.lookup p.name).getD []).map Pick.ticker := by
  -- the two traded tickers are distinct
  have hOR : t.offer_ticker ≠ t.request_ticker := by
    intro he
    rw [he] at hc1
    rw [hc1] at hc2
    exact one_ne_zero hc2
  -- membership of the traded tickers
  have hoffmem : t.offer_ticker ∈ fromPicks.map Pick.ticker :=
    List.count_pos_iff.mp (by rw [hc1]; norm_num)
  have hreqmem : t.request_ticker ∈ toPicks.map Pick.ticker :=
    List.count_pos_iff.mp (by rw [hc3]; norm_num)
  -- the picks found by the accepted-trade handler
  have hfpS : (fromPicks.find? (fun p => p.ticker == t.offer_ticker)).isSome := by
    apply List.find?_isSome.mpr
    obtain ⟨p0, hp0, ht0⟩ := List.mem_map.mp hoffmem
    exact ⟨p0, hp0, by simp [ht0]⟩
  obtain ⟨fp, hfpEq⟩ : ∃ a, fromPicks.find? (fun p => p.ticker == t.offer_ticker) = some a := by
    cases hx : fromPicks.find? (fun p => p.ticker == t.offer_ticker) with
    | none => rw [hx] at hfpS; simp at hfpS
    | some a => exact ⟨a, rfl⟩
  have hfptick : fp.ticker = t.offer_ticker := by simpa using List.find?_some hfpEq
  have hfpmem : fp ∈ fromPicks := List.mem_of_find?_eq_some hfpEq
  have htpS : (toPicks.find? (fun p => p.ticker == t.request_ticker)).isSome := by
    apply List.find?_isSome.mpr
    obtain ⟨p0, hp0, ht0⟩ := List.mem_map.mp hreqmem
    exact ⟨p0, hp0, by simp [ht0]⟩
  obtain ⟨tp, htpEq⟩ : ∃ a, toPicks.find? (fun p => p.ticker == t.request_ticker) = some a := by
    cases hx : toPicks.find? (fun p => p.ticker == t.request_ticker) with
    | none => rw [hx] at htpS; simp at htpS
    | some a => exact ⟨a, rfl⟩
  have htptick : tp.ticker = t.request_ticker := by simpa using List.find?_some htpEq
  have htpmem : tp ∈ toPicks := List.mem_of_find?_eq_some htpEq
  -- the swapped pick lists and their ticker lists
  have hmapfrom : ((fromPicks.erase fp) ++ [tp]).map Pick.ticker =
      (fromPicks.map Pick.ticker).erase t.offer_ticker ++ [t.request_ticker] := by
    rw [List.map_append, erase_map_ticker fromPicks t.offer_ticker fp hfpEq]
    simp [htptick]
  have hmapto : ((toPicks.erase tp) ++ [fp]).map Pick.ticker =
      (toPicks.map Pick.ticker).erase t.request_ticker ++ [t.offer_ticker] := by
    rw [List.map_append, erase_map_ticker toPicks t.request_ticker tp htpEq]
    simp [hfptick]
  -- the total update applied to every player record
  have hupd : ∀ p ∈ d.players, update_player_picked t p = some (
      if p.name = t.from_player then
        { p with picked := p.picked.erase t.offer_ticker ++ [t.request_ticker] }
      else if p.name = t.to_player then
        { p with picked := p.picked.erase t.request_ticker ++ [t.offer_ticker] }
      else p) := by
    intro p hp
    by_cases hb1 : p.name = t.from_player
    · have hpicked : p.picked = fromPicks.map Pick.ticker := by
        have hi := hinv p hp
        rw [hb1, hfp] at hi
        simpa using hi
      have hmem : t.offer_ticker ∈ p.picked := by rw [hpicked]; exact hoffmem
      simp [update_player_picked, hb1, hmem]
    · by_cases hb2 : p.name = t.to_player
      · have hpicked : p.picked = toPicks.map Pick.ticker := by
          have hi := hinv p hp
          rw [hb2, htp] at hi
          simpa using hi
        have hmem : t.request_ticker ∈ p.picked := by rw [hpicked]; exact hreqmem
        simp [update_player_picked, hb1, hb2, hmem, Ne.symm hne]
      · simp [update_player_picked, hb1, hb2]
  have hmapM : d.players.mapM (update_player_picked t) = some (d.players.map (fun p =>
      if p.name = t.from_player then
        { p with picked := p.picked.erase t.offer_ticker ++ [t.request_ticker] }
      else if p.name = t.to_player then
        { p with picked := p.picked.erase t.request_ticker ++ [t.offer_ticker] }
      else p)) :=
    mapM_eq_some_map _ _ _ hupd
  -- run the handler
  have hrun : trade_respond d tid "accepted" = some
      { d with
          trades := set_trade_status d.trades tid "accepted"
          picks := assoc_set (assoc_set d.picks t.from_player ((fromPicks.erase fp) ++ [tp]))
            t.to_player ((toPicks.erase tp) ++ [fp])
          players := d.players.map (fun p =>
            if p.name = t.from_player then
              { p with picked := p.picked.erase t.offer_ticker ++ [t.request_ticker] }
            else if p.name = t.to_player then
              { p with picked := p.picked.erase t.request_ticker ++ [t.offer_ticker] }
            else p) } := by
    unfold trade_respond
    rw [hfind]
    simp only [accept_swap, hfp, htp, hfpEq, htpEq, hmapM]
    rfl
  refine ⟨_, hrun, (fromPicks.erase fp) ++ [tp], (toPicks.erase tp) ++ [fp], ?_, ?_, ?_, ?_, ?_, ?_, ?_, ?_⟩
  · -- lookup of the from-player's new pick list
    rw [lookup_assoc_set_ne _ _ _ _ hne]
    exact lookup_assoc_set_self _ _ _ (by rw [hfp]; rfl)
  · -- lookup of the to-player's new pick list
    apply lookup_assoc_set_self
    rw [lookup_assoc_set_ne _ _ _ _ (Ne.symm hne), htp]
    rfl
  · rw [hmapfrom]
    exact List.mem_append_right _ (List.mem_singleton.mpr rfl)
  · rw [hmapfrom]
    intro hmem
    rcases List.mem_append.mp hmem with hm | hm
    · have hcz : ((fromPicks.map Pick.ticker).erase t.offer_ticker).count t.offer_ticker = 0 := by
        rw [List.count_erase_self, hc1]
      exact List.count_eq_zero.mp hcz hm
    · exact hOR (List.mem_singleton.mp hm)
  · rw [hmapto]
    exact List.mem_append_right _ (List.mem_singleton.mpr rfl)
  · rw [hmapto]
    intro hmem
    rcases List.mem_append.mp hmem with hm | hm
    · have hcz : ((toPicks.map Pick.ticker).erase t.request_ticker).count t.request_ticker = 0 := by
        rw [List.count_erase_self, hc3]
      exact List.count_eq_zero.mp hcz hm
    · exact hOR (List.mem_singleton.mp hm).symm
  · -- lengths
    have h1 : (fromPicks.erase fp).length = fromPicks.length - 1 :=
      List.length_erase_of_mem hfpmem
    have h2 : (toPicks.erase tp).length = toPicks.length - 1 :=
      List.length_erase_of_mem htpmem
    have h3 : 0 < fromPicks.length := List.length_pos.mpr (by intro hc; rw [hc] at hfpmem; simp at hfpmem)
    have h4 : 0 < toPicks.length := List.length_pos.mpr (by intro hc; rw [hc] at htpmem; simp at htpmem)
    simp only [List.length_append, h1, h2, List.length_singleton]
    omega
  · -- the picked invariant is preserved
    intro p' hp'
    obtain ⟨p, hp, rfl⟩ := List.mem_map.mp hp'
    by_cases hb1 : p.name = t.from_player
    · have hpicked : p.picked = fromPicks.map Pick.ticker := by
        have hi := hinv p hp
        rw [hb1, hfp] at hi
        simpa using hi
      rw [if_pos hb1]
      dsimp only
      rw [hb1, lookup_assoc_set_ne _ _ _ _ hne,
        lookup_assoc_set_self _ _ _ (by rw [hfp]; rfl)]
      simp only [Option.getD_some]
      rw [hmapfrom, hpicked]
    · by_cases hb2 : p.name = t.to_player
      · have hpicked : p.picked = toPicks.map Pick.ticker := by
          have hi := hinv p hp
          rw [hb2, htp] at hi
          simpa using hi
        rw [if_neg hb1, if_pos hb2]
        dsimp only
        rw [hb2, lookup_assoc_set_self _ _ _
          (by rw [lookup_assoc_set_ne _ _ _ _ (Ne.symm hne), htp]; rfl)]
        simp only [Option.getD_some]
        rw [hmapto, hpicked]
      · rw [if_neg hb1, if_neg hb2]
        dsimp only
        rw [lookup_assoc_set_ne _ _ _ _ hb2, lookup_assoc_set_ne _ _ _ _ hb1]
        exact hinv p hp

/-- C3 witness: the swap theorem on the concrete pending trade of A's
"X" for B's "Y". -/
theorem trade_accept_swaps_witness :
    exPendingGame.trades.find? (fun tr => tr.id == 1) =
      some ⟨1, "A", "B", "X", "Y", "pending"⟩ ∧
    ∃ d', trade_respond exPendingGame 1 "accepted" = some d' ∧
      ∃ fromPicks' toPicks',
        d'.picks.lookup "A" = some fromPicks' ∧
        d'.picks.lookup "B" = some toPicks' ∧
        "Y" ∈ fromPicks'.map Pick.ticker ∧
        "X" ∉ fromPicks'.map Pick.ticker ∧
        "X" ∈ toPicks'.map Pick.ticker ∧
        "Y" ∉ toPicks'.map Pick.ticker ∧
        fromPicks'.length + toPicks'.length = 1 + 1 ∧
        ∀ p ∈ d'.players,
          p.picked = ((d'.picks.lookup p.name).getD []).map Pick.ticker :=
  ⟨by decide,
   trade_accept_swaps exPendingGame 1 ⟨1, "A", "B", "X", "Y", "pending"⟩
     [⟨"X", 10, 0⟩] [⟨"Y", 20, 0⟩] (by decide) rfl (by decide) (by decide) (by decide)
     (by decide) (by decide) (by decide) (by decide) (by decide)⟩
